import Mathlib

/-!
# Verification of `src/scripts/polymarket/fetch_polymarket.py`

A shallow embedding of the Polymarket fetch/normalize script.  Python's
dynamically typed values are modelled by the inductive `PyVal`; numbers
(`int` and `float` alike) are modelled as rationals; exceptions are
modelled with `Except PyErr`.
-/

set_option autoImplicit false

unseal Rat.mul Rat.inv Rat.add Rat.sub

namespace Polymarket

/-- Model of the Python values that flow through the script: strings,
numbers (`int`/`float` collapsed into `ℚ`), booleans, `None`, lists and
(string-or-value keyed) dicts represented as association lists in
insertion order. -/
inductive PyVal where
  | pstr : String → PyVal
  | pnum : ℚ → PyVal
  | pbool : Bool → PyVal
  | pnone : PyVal
  | plist : List PyVal → PyVal
  | pdict : List (PyVal × PyVal) → PyVal

mutual

/-- Decidable equality on `PyVal` (written by hand: the nested lists keep
the automatic derivation from applying). -/
def PyVal.decEq : (a b : PyVal) → Decidable (a = b)
  | .pstr a, .pstr b =>
    if h : a = b then isTrue (by rw [h]) else isFalse (fun hh => h (PyVal.pstr.inj hh))
  | .pnum a, .pnum b =>
    if h : a = b then isTrue (by rw [h]) else isFalse (fun hh => h (PyVal.pnum.inj hh))
  | .pbool a, .pbool b =>
    if h : a = b then isTrue (by rw [h]) else isFalse (fun hh => h (PyVal.pbool.inj hh))
  | .pnone, .pnone => isTrue rfl
  | .plist a, .plist b =>
    match PyVal.decEqList a b with
    | isTrue h => isTrue (by rw [h])
    | isFalse h => isFalse (fun hh => h (PyVal.plist.inj hh))
  | .pdict a, .pdict b =>
    match PyVal.decEqPairs a b with
    | isTrue h => isTrue (by rw [h])
    | isFalse h => isFalse (fun hh => h (PyVal.pdict.inj hh))
  | .pstr _, .pnum _ => isFalse (fun h => PyVal.noConfusion h)
  | .pstr _, .pbool _ => isFalse (fun h => PyVal.noConfusion h)
  | .pstr _, .pnone => isFalse (fun h => PyVal.noConfusion h)
  | .pstr _, .plist _ => isFalse (fun h => PyVal.noConfusion h)
  | .pstr _, .pdict _ => isFalse (fun h => PyVal.noConfusion h)
  | .pnum _, .pstr _ => isFalse (fun h => PyVal.noConfusion h)
  | .pnum _, .pbool _ => isFalse (fun h => PyVal.noConfusion h)
  | .pnum _, .pnone => isFalse (fun h => PyVal.noConfusion h)
  | .pnum _, .plist _ => isFalse (fun h => PyVal.noConfusion h)
  | .pnum _, .pdict _ => isFalse (fun h => PyVal.noConfusion h)
  | .pbool _, .pstr _ => isFalse (fun h => PyVal.noConfusion h)
  | .pbool _, .pnum _ => isFalse (fun h => PyVal.noConfusion h)
  | .pbool _, .pnone => isFalse (fun h => PyVal.noConfusion h)
  | .pbool _, .plist _ => isFalse (fun h => PyVal.noConfusion h)
  | .pbool _, .pdict _ => isFalse (fun h => PyVal.noConfusion h)
  | .pnone, .pstr _ => isFalse (fun h => PyVal.noConfusion h)
  | .pnone, .pnum _ => isFalse (fun h => PyVal.noConfusion h)
  | .pnone, .pbool _ => isFalse (fun h => PyVal.noConfusion h)
  | .pnone, .plist _ => isFalse (fun h => PyVal.noConfusion h)
  | .pnone, .pdict _ => isFalse (fun h => PyVal.noConfusion h)
  | .plist _, .pstr _ => isFalse (fun h => PyVal.noConfusion h)
  | .plist _, .pnum _ => isFalse (fun h => PyVal.noConfusion h)
  | .plist _, .pbool _ => isFalse (fun h => PyVal.noConfusion h)
  | .plist _, .pnone => isFalse (fun h => PyVal.noConfusion h)
  | .plist _, .pdict _ => isFalse (fun h => PyVal.noConfusion h)
  | .pdict _, .pstr _ => isFalse (fun h => PyVal.noConfusion h)
  | .pdict _, .pnum _ => isFalse (fun h => PyVal.noConfusion h)
  | .pdict _, .pbool _ => isFalse (fun h => PyVal.noConfusion h)
  | .pdict _, .pnone => isFalse (fun h => PyVal.noConfusion h)
  | .pdict _, .plist _ => isFalse (fun h => PyVal.noConfusion h)

/-- Decidable equality for lists of `PyVal`. -/
def PyVal.decEqList : (a b : List PyVal) → Decidable (a = b)
  | [], [] => isTrue rfl
  | [], _ :: _ => isFalse (fun h => List.noConfusion h)
  | _ :: _, [] => isFalse (fun h => List.noConfusion h)
  | x :: xs, y :: ys =>
    match PyVal.decEq x y, PyVal.decEqList xs ys with
    | isTrue h1, isTrue h2 => isTrue (by rw [h1, h2])
    | isFalse h1, _ => isFalse (fun h => h1 (List.cons.inj h).1)
    | _, isFalse h2 => isFalse (fun h => h2 (List.cons.inj h).2)

/-- Decidable equality for lists of `PyVal` pairs. -/
def PyVal.decEqPairs : (a b : List (PyVal × PyVal)) → Decidable (a = b)
  | [], [] => isTrue rfl
  | [], _ :: _ => isFalse (fun h => List.noConfusion h)
  | _ :: _, [] => isFalse (fun h => List.noConfusion h)
  | (k1, v1) :: xs, (k2, v2) :: ys =>
    match PyVal.decEq k1 k2, PyVal.decEq v1 v2, PyVal.decEqPairs xs ys with
    | isTrue h1, isTrue h2, isTrue h3 => isTrue (by rw [h1, h2, h3])
    | isFalse h1, _, _ =>
      isFalse (fun h => h1 (congrArg Prod.fst (List.cons.inj h).1))
    | _, isFalse h2, _ =>
      isFalse (fun h => h2 (congrArg Prod.snd (List.cons.inj h).1))
    | _, _, isFalse h3 => isFalse (fun h => h3 (List.cons.inj h).2)

end

instance : DecidableEq PyVal := PyVal.decEq

/-- The Python exceptions the modelled code can raise. -/
inductive PyErr where
  | typeError : PyErr
  | valueError : PyErr
  | attributeError : PyErr
  deriving DecidableEq, Repr

/-- Decidable equality of `Except` results. -/
def exceptDecEq {ε α : Type} [DecidableEq ε] [DecidableEq α] :
    (a b : Except ε α) → Decidable (a = b)
  | .error e1, .error e2 =>
    if h : e1 = e2 then isTrue (by rw [h]) else isFalse fun hh => h (Except.error.inj hh)
  | .ok a1, .ok a2 =>
    if h : a1 = a2 then isTrue (by rw [h]) else isFalse fun hh => h (Except.ok.inj hh)
  | .error _, .ok _ => isFalse fun h => Except.noConfusion h
  | .ok _, .error _ => isFalse fun h => Except.noConfusion h

instance {ε α : Type} [DecidableEq ε] [DecidableEq α] : DecidableEq (Except ε α) :=
  exceptDecEq

/-- Python truthiness (`if option:` etc.). -/
def truthy : PyVal → Bool
  | .pstr s => !(s == "")
  | .pnum q => decide (q ≠ 0)
  | .pbool b => b
  | .pnone => false
  | .plist l => !l.isEmpty
  | .pdict l => !l.isEmpty

/-- Iterating a Python value (as `zip` and `for` do): a string yields its
characters as one-character strings, a list its elements, a dict its keys;
numbers, booleans and `None` are not iterable (`TypeError`). -/
def iterElems : PyVal → Option (List PyVal)
  | .pstr s => some (s.toList.map fun c => .pstr (String.mk [c]))
  | .plist l => some l
  | .pdict l => some (l.map Prod.fst)
  | _ => none

/-- Python `len()`: defined on strings, lists and dicts, `TypeError`
otherwise. -/
def pyLen : PyVal → Except PyErr Nat
  | .pstr s => .ok s.length
  | .plist l => .ok l.length
  | .pdict l => .ok l.length
  | _ => .error .typeError

/-- Dict insertion with Python semantics: an existing key keeps its
position and gets the new value, a fresh key is appended. -/
def dictInsert (d : List (PyVal × PyVal)) (k v : PyVal) : List (PyVal × PyVal) :=
  if d.any fun kv => kv.1 == k then
    d.map fun kv => if kv.1 == k then (k, v) else kv
  else
    d ++ [(k, v)]

/-- Python `dict.get(key, default)` on a `PyVal`; calling `.get` on a
non-dict raises `AttributeError`. -/
def dictGetD (d k dflt : PyVal) : Except PyErr PyVal :=
  match d with
  | .pdict l => .ok (((l.find? fun kv => kv.1 == k).map Prod.snd).getD dflt)
  | _ => .error .attributeError

/-! ## A model of `json.loads` -/

/-- The four JSON whitespace characters. -/
def isJsonWs (c : Char) : Bool := c == ' ' || c == '\t' || c == '\n' || c == '\r'

/-- Skip JSON whitespace. -/
def skipWs (cs : List Char) : List Char := cs.dropWhile isJsonWs

/-- Value of a hexadecimal digit. -/
def hexVal (c : Char) : Option Nat :=
  if c.isDigit then some (c.toNat - '0'.toNat)
  else if 'a' ≤ c ∧ c ≤ 'f' then some (c.toNat - 'a'.toNat + 10)
  else if 'A' ≤ c ∧ c ≤ 'F' then some (c.toNat - 'A'.toNat + 10)
  else none

/-- Single-character JSON string escapes. -/
def escChar : Char → Option Char
  | '"' => some '"'
  | '\\' => some '\\'
  | '/' => some '/'
  | 'b' => some (Char.ofNat 8)
  | 'f' => some (Char.ofNat 12)
  | 'n' => some '\n'
  | 'r' => some '\r'
  | 't' => some '\t'
  | _ => none

/-- Parse the body of a JSON string (the opening quote already consumed),
returning the decoded characters and the input after the closing quote. -/
def jstrRest : List Char → Option (List Char × List Char)
  | [] => none
  | '"' :: rest => some ([], rest)
  | '\\' :: 'u' :: a :: b :: c :: d :: rest => do
    let ha ← hexVal a
    let hb ← hexVal b
    let hc ← hexVal c
    let hd ← hexVal d
    let (s, r) ← jstrRest rest
    pure (Char.ofNat (((ha * 16 + hb) * 16 + hc) * 16 + hd) :: s, r)
  | '\\' :: e :: rest => do
    let c ← escChar e
    let (s, r) ← jstrRest rest
    pure (c :: s, r)
  | c :: rest =>
    if c.toNat < 32 then none
    else (jstrRest rest).map fun sr => (c :: sr.1, sr.2)

/-- Numeric value of a digit string. -/
def digitsVal (ds : List Char) : Nat :=
  ds.foldl (fun n c => n * 10 + (c.toNat - '0'.toNat)) 0

/-- Parse the digits of an exponent (after `e`/`E`). -/
def jexpDigits (cs : List Char) : Option (Int × List Char) :=
  let (sgn, r) : Int × List Char :=
    match cs with
    | '+' :: r1 => (1, r1)
    | '-' :: r1 => (-1, r1)
    | _ => (1, cs)
  let ds := r.takeWhile Char.isDigit
  if ds.isEmpty then none
  else some (sgn * (digitsVal ds : Int), r.dropWhile Char.isDigit)

/-- Parse an optional exponent part. -/
def jexpRest (cs : List Char) : Option (Int × List Char) :=
  match cs with
  | 'e' :: r => jexpDigits r
  | 'E' :: r => jexpDigits r
  | _ => some (0, cs)

/-- Parse a JSON number (strict grammar: no leading zeros, a fraction dot
needs at least one digit).  `int` and `float` results are both rationals. -/
def jnumRest (cs : List Char) : Option (ℚ × List Char) := do
  let (neg, cs1) :=
    match cs with
    | '-' :: r => (true, r)
    | _ => (false, cs)
  match cs1 with
  | [] => none
  | c :: r =>
    if !c.isDigit then none
    else
      let (ds, r1) :=
        if c == '0' then ([c], r)
        else (c :: r.takeWhile Char.isDigit, r.dropWhile Char.isDigit)
      let (fds, r2) ←
        match r1 with
        | '.' :: r2a =>
          let f := r2a.takeWhile Char.isDigit
          if f.isEmpty then none else some (f, r2a.dropWhile Char.isDigit)
        | _ => some (([] : List Char), r1)
      let (ex, r3) ← jexpRest r2
      let mag : ℚ := ((digitsVal ds : ℚ) + (digitsVal fds : ℚ) / (10 : ℚ) ^ fds.length)
                       * (10 : ℚ) ^ ex
      pure (if neg then -mag else mag, r3)

mutual

/-- Parse one JSON value (fuel-bounded recursive descent). -/
def jval : Nat → List Char → Option (PyVal × List Char)
  | 0, _ => none
  | fuel + 1, cs =>
    match skipWs cs with
    | 'n' :: 'u' :: 'l' :: 'l' :: rest => some (.pnone, rest)
    | 't' :: 'r' :: 'u' :: 'e' :: rest => some (.pbool true, rest)
    | 'f' :: 'a' :: 'l' :: 's' :: 'e' :: rest => some (.pbool false, rest)
    | '"' :: rest => (jstrRest rest).map fun sr => (.pstr (String.mk sr.1), sr.2)
    | '[' :: rest =>
      (match skipWs rest with
       | ']' :: r2 => some (.plist [], r2)
       | r2 => (jitems fuel r2).map fun ir => (.plist ir.1, ir.2))
    | '{' :: rest =>
      (match skipWs rest with
       | '}' :: r2 => some (.pdict [], r2)
       | r2 =>
         (jmembers fuel r2).map fun ir =>
           (.pdict (ir.1.foldl (fun d kv => dictInsert d kv.1 kv.2) []), ir.2))
    | rest => (jnumRest rest).map fun nr => (.pnum nr.1, nr.2)

/-- Parse the comma-separated items of a JSON array up to `]`. -/
def jitems : Nat → List Char → Option (List PyVal × List Char)
  | 0, _ => none
  | fuel + 1, cs => do
    let (v, r1) ← jval fuel cs
    match skipWs r1 with
    | ',' :: r2 =>
      let (vs, r3) ← jitems fuel r2
      pure (v :: vs, r3)
    | ']' :: r2 => pure ([v], r2)
    | _ => none

/-- Parse the members of a JSON object up to `}` (in textual order). -/
def jmembers : Nat → List Char → Option (List (PyVal × PyVal) × List Char)
  | 0, _ => none
  | fuel + 1, cs =>
    match skipWs cs with
    | '"' :: r1 => do
      let (ks, r2) ← jstrRest r1
      match skipWs r2 with
      | ':' :: r3 => do
        let (v, r4) ← jval fuel r3
        match skipWs r4 with
        | ',' :: r5 => do
          let (ms, r6) ← jmembers fuel r5
          pure ((PyVal.pstr (String.mk ks), v) :: ms, r6)
        | '}' :: r5 => pure ([(PyVal.pstr (String.mk ks), v)], r5)
        | _ => none
      | _ => none
    | _ => none

end

/-- Model of `json.loads`: decode one JSON document (or fail, which in the
script is caught as `json.JSONDecodeError`).  The non-standard `NaN` and
`Infinity` literals accepted by Python's decoder are not modelled. -/
def jloads (s : String) : Option PyVal :=
  match jval (s.length + 1) s.toList with
  | some (v, rest) => if (skipWs rest).isEmpty then some v else none
  | none => none

/-! ## Models of `float()` and `str.strip()` -/

/-- Model of Python `float(str)`: optional surrounding whitespace and sign,
then a decimal numeral (`D+ [. D*]` or `. D+`) with an optional exponent.
(The `inf`/`nan` spellings and digit underscores are not modelled.) -/
def parseFloat (s : String) : Option ℚ := do
  let cs := ((s.toList.dropWhile Char.isWhitespace).reverse.dropWhile
               Char.isWhitespace).reverse
  let (neg, cs1) :=
    match cs with
    | '-' :: r => (true, r)
    | '+' :: r => (false, r)
    | _ => (false, cs)
  let ds := cs1.takeWhile Char.isDigit
  let r1 := cs1.dropWhile Char.isDigit
  let (fds, r2) :=
    match r1 with
    | '.' :: ra => (ra.takeWhile Char.isDigit, ra.dropWhile Char.isDigit)
    | _ => (([] : List Char), r1)
  if ds.isEmpty && fds.isEmpty then none
  else
    let (ex, r3) ← jexpRest r2
    if r3.isEmpty then
      let mag : ℚ := ((digitsVal ds : ℚ) + (digitsVal fds : ℚ) / (10 : ℚ) ^ fds.length)
                       * (10 : ℚ) ^ ex
      pure (if neg then -mag else mag)
    else none

/-- Model of Python `float(x)` on a value: numbers pass through, booleans
become `0`/`1`, strings are parsed (`ValueError` on failure), everything
else raises `TypeError`. -/
def pyFloat : PyVal → Except PyErr ℚ
  | .pnum q => .ok q
  | .pbool b => .ok (if b then 1 else 0)
  | .pstr s =>
    match parseFloat s with
    | some q => .ok q
    | none => .error .valueError
  | _ => .error .typeError

/-- Model of `str.strip()`. -/
def pyStrip (s : String) : String :=
  String.mk (((s.toList.dropWhile Char.isWhitespace).reverse.dropWhile
                Char.isWhitespace).reverse)

/-! ## The raw upstream records -/

/-- A token record as consumed by `get_answer_options`: only its
`"outcome"` field is read (a string in the upstream payload). -/
structure Token where
  outcome : Option String
  deriving DecidableEq

/-- A raw market object from the Gamma API, restricted to the fields the
script reads.  `outcomes` and `outcomePrices` are dynamically shaped and
kept as `PyVal`; an absent field is `none`. -/
structure RawMarket where
  id : String
  question : String
  endDate : Option String
  slug : Option String
  active : Option Bool
  closed : Option Bool
  outcomes : Option PyVal
  tokens : Option (List Token)
  outcomePrices : Option PyVal
  deriving DecidableEq

/-- A raw event object from the Gamma API, restricted to the fields the
script reads. -/
structure RawEvent where
  id : String
  title : String
  description : Option String
  endDate : Option String
  slug : Option String
  imageUrl : Option String
  markets : Option (List RawMarket)
  deriving DecidableEq

/-! ## `get_answer_options` -/

/-- The token-outcome fallback collection of `get_answer_options`:
`sorted({str(token.get("outcome", "")).strip() for token in tokens} - {''})`
(the set is modelled by deduplication, and `sorted` by insertion sort on
the lexicographic string order). -/
def sortedTokenOutcomes (tokens : List Token) : List String :=
  (((tokens.map fun t => pyStrip (t.outcome.getD "")).filter
      fun s => !(s == "")).dedup).insertionSort (· ≤ ·)

/-- The price value consulted by the final fallback of
`get_answer_options`: `market.get("outcomePrices", [])`, decoded if
textual, a decode failure yielding `[]`. -/
def options_prices (m : RawMarket) : PyVal :=
  match m.outcomePrices.getD (.plist []) with
  | .pstr s => (jloads s).getD (.plist [])
  | v => v

/-- Function `get_answer_options`: the answer-option fallback chain.  A present
`outcomes` field is returned (decoded when it is a decodable string, as
it stands otherwise); else the sorted distinct non-empty token outcomes;
else `["Yes", "No"]` for exactly two price entries; else synthesized
`"Option i"` placeholders, one per price entry. -/
def get_answer_options (m : RawMarket) : Except PyErr PyVal :=
  match m.outcomes with
  | some v =>
    match v with
    | .pstr s =>
      match jloads s with
      | some j => .ok j
      | none => .ok v
    | _ => .ok v
  | none =>
    match sortedTokenOutcomes (m.tokens.getD []) with
    | [] =>
      match pyLen (options_prices m) with
      | .error e => .error e
      | .ok n =>
        if n = 2 then .ok (.plist [.pstr "Yes", .pstr "No"])
        else .ok (.plist ((List.range n).map fun i => .pstr ("Option " ++ toString (i + 1))))
    | l => .ok (.plist (l.map .pstr))

/-! ## `parse_outcome_prices` and the record formatters -/

/-- The normalized price value of `parse_outcome_prices`:
`market.get("outcomePrices", {})`, decoded if textual, a decode failure
yielding `[]`. -/
def normalized_prices (m : RawMarket) : PyVal :=
  match m.outcomePrices.getD (.pdict []) with
  | .pstr s => (jloads s).getD (.plist [])
  | v => v

/-- Function `parse_outcome_prices`: list-shaped price data is zipped against the
answer options resolved from the same raw record (skipping falsy labels,
coercing each price with `float`); any other shape is returned as it
stands. -/
def parse_outcome_prices (m : RawMarket) : Except PyErr PyVal := do
  let prices := normalized_prices m
  let answer_options ← get_answer_options m
  match prices with
  | .plist ps =>
    match iterElems answer_options with
    | none => .error .typeError
    | some opts =>
      let d ← (opts.zip ps).foldlM
        (fun d op =>
          if truthy op.1 then do
            let q ← pyFloat op.2
            pure (dictInsert d op.1 (.pnum q))
          else pure d) []
      pure (.pdict d)
  | _ => pure prices

/-- The normalized market record (the spec's MarketRecord). -/
structure MarketRecord where
  id : String
  question : String
  end_date : Option String
  answer_options : PyVal
  current_prices : PyVal
  active : Option Bool
  closed : Option Bool
  url : String
  deriving DecidableEq

/-- How an absent (`None`) field renders inside an f-string. -/
def optStr : Option String → String
  | some s => s
  | none => "None"

/-- Function `format_market_data`. -/
def format_market_data (m : RawMarket) : Except PyErr MarketRecord := do
  let opts ← get_answer_options m
  let prices ← parse_outcome_prices m
  pure { id := m.id, question := m.question, end_date := m.endDate,
         answer_options := opts, current_prices := prices,
         active := m.active, closed := m.closed,
         url := "https://polymarket.com/market/" ++ optStr m.slug }

/-- The normalized event record (the spec's EventRecord). -/
structure EventRecord where
  id : String
  title : String
  description : String
  end_date : Option String
  markets : List MarketRecord
  url : String
  image : Option String
  deriving DecidableEq

/-- Function `format_event_data`. -/
def format_event_data (e : RawEvent) : Except PyErr EventRecord := do
  let ms ← (e.markets.getD []).mapM format_market_data
  pure { id := e.id, title := e.title, description := e.description.getD "",
         end_date := e.endDate, markets := ms,
         url := "https://polymarket.com/event/" ++ optStr e.slug,
         image := e.imageUrl }

/-! ## The human-readable renderer -/

/-- Round a rational to the nearest integer, ties to even (the rounding
used by fixed-point formatting). -/
def roundHalfEven (x : ℚ) : ℤ :=
  let f := ⌊x⌋
  let r := x - f
  if r < 1 / 2 then f
  else if r > 1 / 2 then f + 1
  else if f % 2 = 0 then f else f + 1

/-- Fixed-point formatting with one decimal digit, as in `f"{x:.1f}"`. -/
def fmtFixed1 (x : ℚ) : String :=
  let n := roundHalfEven (x * 10)
  let sign := if n < 0 then "-" else ""
  sign ++ toString (n.natAbs / 10) ++ "." ++ toString (n.natAbs % 10)

/-- Model of `str()` / f-string rendering for interpolated values.  A
number renders as its rational representation — an approximation of the
CPython float `repr` that no statement below relies on: every verified
statement interpolates strings only. -/
def pyStr : PyVal → String
  | .pstr s => s
  | .pnum q => toString q
  | .pbool b => if b then "True" else "False"
  | .pnone => "None"
  | .plist _ => "<list>"
  | .pdict _ => "<dict>"

/-- The `f"...{price * 100:.1f}%"` interpolation, per price shape: numbers
(and booleans, which multiply as ints) format; `* 100` turns a string or
list into a string or list, which the `f` format code then rejects
(`ValueError` for `str`, `TypeError` for `list`); `None` and dicts
already fail at the multiplication. -/
def mulFormat : PyVal → Except PyErr String
  | .pnum q => .ok (fmtFixed1 (q * 100))
  | .pbool b => .ok (fmtFixed1 ((if b then 1 else 0) * 100))
  | .pstr _ => .error .valueError
  | .plist _ => .error .typeError
  | .pdict _ => .error .typeError
  | .pnone => .error .typeError

/-- Function `format_market_text`: a question line, an end-date line, `"Options:"`,
then one line per answer option with the price defaulted to `0.0` when the
option has no entry in `current_prices`. -/
def format_market_text (r : MarketRecord) : Except PyErr String := do
  let base := ["Market: " ++ r.question, "Ends: " ++ optStr r.end_date, "Options:"]
  match iterElems r.answer_options with
  | none => .error .typeError
  | some ops =>
    let lines ← ops.foldlM
      (fun acc op => do
        let price ← dictGetD r.current_prices op (.pnum 0)
        let pct ← mulFormat price
        pure (acc ++ ["> " ++ pyStr op ++ " (" ++ pct ++ "%)"])) base
    pure (String.intercalate "\n" lines)

/-! ## `extract_slug` and `fetch_polymarket_data` -/

/-- A character a slug may contain: the regex character class `[^/?]`. -/
def isSlugChar (c : Char) : Bool := !(c == '/' || c == '?')

/-- A scheme character per `urllib.parse` (`[a-z0-9+.-]`, case kept). -/
def isSchemeChar (c : Char) : Bool := c.isAlphanum || c == '+' || c == '-' || c == '.'

/-- Drop a leading `scheme:` when the URL has one (a leading run of scheme
characters starting with a letter, up to a colon). -/
def stripScheme (cs : List Char) : List Char :=
  let pre := cs.takeWhile isSchemeChar
  match cs.drop pre.length with
  | ':' :: rest =>
    match pre with
    | c :: _ => if c.isAlpha then rest else cs
    | [] => cs
  | _ => cs

/-- Model of `urllib.parse.urlparse(url).path`: cut the fragment at `#`,
drop a leading `scheme:`, drop a `//netloc` up to the next `/` or `?`,
and cut the query at `?`. -/
def urlparse_path (url : String) : String :=
  let cs := url.toList.takeWhile fun c => !(c == '#')
  let cs := stripScheme cs
  let cs :=
    match cs with
    | '/' :: '/' :: rest => rest.dropWhile fun c => !(c == '/' || c == '?')
    | _ => cs
  String.mk (cs.takeWhile fun c => !(c == '?'))

/-- Model of `re.search` for a pattern of the shape `pat([^/?]+)`: scan left to
right for the first position where the literal `pat` is followed by at
least one slug character, and return the greedy capture. -/
def reSearch (pat : List Char) : List Char → Option (List Char)
  | [] => none
  | c :: rest =>
    if pat.isPrefixOf (c :: rest) then
      if (((c :: rest).drop pat.length).takeWhile isSlugChar).isEmpty then
        reSearch pat rest
      else some (((c :: rest).drop pat.length).takeWhile isSlugChar)
    else reSearch pat rest

/-- Function `extract_slug`: the first `/event/([^/?]+)` match in the URL's path,
else the first `/market/([^/?]+)` match, else `None`. -/
def extract_slug (url : String) : Option String :=
  match reSearch "/event/".toList (urlparse_path url).toList with
  | some slug => some (String.mk slug)
  | none =>
    match reSearch "/market/".toList (urlparse_path url).toList with
    | some slug => some (String.mk slug)
    | none => none

/-- An upstream listing response: an HTTP status and the decoded JSON
body, a list of records (the events endpoint yields raw events, the
markets endpoint raw markets). -/
structure ApiResponse (ρ : Type) where
  status : Nat
  body : List ρ
  deriving DecidableEq

/-- Model of `response.status_code == 200 and response.json()` followed by
`response.json()[0]`: the first record of a successful non-empty
response. -/
def first_hit {ρ : Type} (r : ApiResponse ρ) : Option ρ :=
  if r.status = 200 then r.body.head? else none

/-- The three shapes of a `fetch_polymarket_data` result: an ErrorResult,
a formatted event, or a formatted market. -/
inductive FetchOut where
  | err : String → FetchOut
  | event : EventRecord → FetchOut
  | market : MarketRecord → FetchOut
  deriving DecidableEq

/-- Function `fetch_polymarket_data`, parametrized by the two Gamma API endpoints
(slug ↦ response): extract the slug, try the events endpoint, then the
markets endpoint, and fall back to the not-found ErrorResult. -/
def fetch_polymarket_data (eventsApi : String → ApiResponse RawEvent)
    (marketsApi : String → ApiResponse RawMarket) (url : String) :
    Except PyErr FetchOut :=
  match extract_slug url with
  | none => .ok (.err "Invalid Polymarket URL format")
  | some slug =>
    match first_hit (eventsApi slug) with
    | some e => (format_event_data e).map FetchOut.event
    | none =>
      match first_hit (marketsApi slug) with
      | some m => (format_market_data m).map FetchOut.market
      | none => .ok (.err "No matching event or market found")

/-! ## Spec-side predicates and data -/

/-- The spec's pattern containment: `s` contains the literal `pat`
immediately followed by a non-empty slug of non-`/?` characters that is
terminated by `/`, by `?`, or by the end of the string. -/
def ListHas (pat s slug : List Char) : Prop :=
  ∃ pre post, s = pre ++ pat ++ slug ++ post ∧ slug ≠ [] ∧
    (∀ c ∈ slug, isSlugChar c = true) ∧
    (post = [] ∨ ∃ d post2, post = d :: post2 ∧ (d = '/' ∨ d = '?'))

/-- The path contains `/event/<slug>`. -/
def HasEventSlug (path slug : String) : Prop :=
  ListHas "/event/".toList path.toList slug.toList

/-- The path contains `/market/<slug>`. -/
def HasMarketSlug (path slug : String) : Prop :=
  ListHas "/market/".toList path.toList slug.toList

/-- Whether a price key occurs among the answer options (elementwise, on
the option sequence as iterated). -/
def appears_in (k opts : PyVal) : Bool :=
  match iterElems opts with
  | some l => l.contains k
  | none => false

/-- The spec's MarketRecord invariant: every key of `current_prices`
appears in `answer_options`. -/
def no_orphan_keys (r : MarketRecord) : Bool :=
  match r.current_prices with
  | .pdict d => d.all fun kv => appears_in kv.1 r.answer_options
  | _ => true

/-- Modelled from the spec (§4.4): zip the price list positionally against
the resolved answer options, skip any pairing whose option label is
empty/falsy, and coerce every price value to a floating-point number. -/
def spec_zip_prices : List PyVal → List PyVal → Except PyErr (List (PyVal × PyVal))
  | o :: os, p :: ps =>
    if truthy o then do
      let q ← pyFloat p
      let rest ← spec_zip_prices os ps
      pure ((o, PyVal.pnum q) :: rest)
    else spec_zip_prices os ps
  | _, _ => pure []

/-! ## Concrete inputs used by the witnesses and counterexamples -/

/-- A raw market with every optional field absent. -/
def emptyMarket : RawMarket :=
  { id := "1", question := "q", endDate := none, slug := none, active := none,
    closed := none, outcomes := none, tokens := none, outcomePrices := none }

/-- List-shaped `outcomes`, mapping-shaped `outcomePrices` whose key
`"Foo"` is not an answer option. -/
def marketOrphan : RawMarket :=
  { emptyMarket with
    outcomes := some (.plist [.pstr "Yes", .pstr "No"]),
    outcomePrices := some (.pdict [(.pstr "Foo", .pnum (1 / 2))]) }

/-- A textual `outcomes` value that is not valid JSON. -/
def marketBadOutcomes : RawMarket :=
  { emptyMarket with outcomes := some (.pstr "nope") }

/-- A textual `outcomePrices` value that is not valid JSON. -/
def marketBadPrices : RawMarket :=
  { emptyMarket with outcomePrices := some (.pstr "not json") }

/-- Three price entries and no outcome information at all. -/
def marketThreePrices : RawMarket :=
  { emptyMarket with
    outcomePrices := some (.plist [.pstr "0.5", .pnum (1 / 4), .pnum (1 / 4)]) }

/-- The spec's §8.2 market: prices `["0.7", "0.3"]`, no outcomes field and
no tokens. -/
def marketTwoPrices : RawMarket :=
  { emptyMarket with
    outcomePrices := some (.plist [.pstr "0.7", .pstr "0.3"]) }

/-- A list-shaped price entry that is not numeric, paired with the
non-empty option label `"Yes"`. -/
def marketBadFloat : RawMarket :=
  { emptyMarket with
    outcomePrices := some (.plist [.pstr "abc", .pstr "0.5"]) }

/-- The record `format_market_data` produces for `marketOrphan`. -/
def orphanRecord : MarketRecord :=
  { id := "1", question := "q", end_date := none,
    answer_options := .plist [.pstr "Yes", .pstr "No"],
    current_prices := .pdict [(.pstr "Foo", .pnum (1 / 2))],
    active := none, closed := none,
    url := "https://polymarket.com/market/None" }

/-- The record `format_market_data` produces for `marketTwoPrices`. -/
def twoPriceRecord : MarketRecord :=
  { id := "1", question := "q", end_date := none,
    answer_options := .plist [.pstr "Yes", .pstr "No"],
    current_prices := .pdict [(.pstr "Yes", .pnum (7 / 10)),
      (.pstr "No", .pnum (3 / 10))],
    active := none, closed := none,
    url := "https://polymarket.com/market/None" }

/-- The price a mapping lists for a label, `0` when absent (used to state
the renderer's behavior on well-formed records). -/
def priceOf (d : List (PyVal × PyVal)) (lb : String) : ℚ :=
  match (d.find? fun kv => kv.1 == .pstr lb).map Prod.snd with
  | some (.pnum q) => q
  | _ => 0

/-- A normalized record with options `["Yes", "No"]` and a price for
`"Yes"` only (the spec's §8.6 rendering example). -/
def recordMissingNo : MarketRecord :=
  { id := "1", question := "Will it rain?", end_date := some "2030-01-01",
    answer_options := .plist [.pstr "Yes", .pstr "No"],
    current_prices := .pdict [(.pstr "Yes", .pnum (7 / 10))],
    active := some true, closed := some false, url := "u" }

/-- An events endpoint that answers 200 with an empty list. -/
def emptyEventsApi : String → ApiResponse RawEvent := fun _ => ⟨200, []⟩

/-- A markets endpoint that answers a non-success status. -/
def failMarketsApi : String → ApiResponse RawMarket := fun _ => ⟨500, []⟩

/-! ## Lemmas about `reSearch` -/

/-- The characters excluded from a slug are exactly the two terminators. -/
theorem isSlugChar_eq_false_iff {c : Char} :
    isSlugChar c = false ↔ c = '/' ∨ c = '?' := by
  simp [isSlugChar, or_iff_not_imp_left]

/-- A successful `reSearch` returns a slug the searched string contains. -/
theorem reSearch_sound {pat s slug : List Char}
    (h : reSearch pat s = some slug) : ListHas pat s slug := by
  induction s with
  | nil => simp [reSearch] at h
  | cons c rest ih =>
    rw [reSearch] at h
    by_cases hp : pat.isPrefixOf (c :: rest)
    · rw [if_pos hp] at h
      by_cases he : (((c :: rest).drop pat.length).takeWhile isSlugChar).isEmpty
      · rw [if_pos he] at h
        obtain ⟨pre, post, h1, h2, h3, h4⟩ := ih h
        exact ⟨c :: pre, post, by simp [h1], h2, h3, h4⟩
      · rw [if_neg he] at h
        have hslug : ((c :: rest).drop pat.length).takeWhile isSlugChar = slug :=
          Option.some.inj h
        have hpre : pat ++ (c :: rest).drop pat.length = c :: rest :=
          List.prefix_iff_eq_append.mp (List.isPrefixOf_iff_prefix.mp hp)
        refine ⟨[], ((c :: rest).drop pat.length).dropWhile isSlugChar, ?_, ?_, ?_, ?_⟩
        · rw [← hpre, ← hslug]
          simp [List.takeWhile_append_dropWhile]
        · intro hnil
          rw [hslug] at he
          exact he (by simp [hnil])
        · intro x hx
          exact List.mem_takeWhile_imp (hslug ▸ hx)
        · rcases hd : ((c :: rest).drop pat.length).dropWhile isSlugChar with _ | ⟨d, post2⟩
          · exact Or.inl rfl
          · refine Or.inr ⟨d, post2, rfl, ?_⟩
            have := List.head_dropWhile_not isSlugChar ((c :: rest).drop pat.length)
              (by rw [hd]; exact List.cons_ne_nil _ _)
            rw [isSlugChar_eq_false_iff] at this
            simpa [hd] using this
    · rw [if_neg hp] at h
      obtain ⟨pre, post, h1, h2, h3, h4⟩ := ih h
      exact ⟨c :: pre, post, by simp [h1], h2, h3, h4⟩

/-- If the searched string contains the pattern, `reSearch` succeeds. -/
theorem reSearch_isSome {pat s slug : List Char}
    (h : ListHas pat s slug) : ∃ sl, reSearch pat s = some sl := by
  obtain ⟨pre, post, h1, h2, h3, h4⟩ := h
  induction pre generalizing s with
  | nil =>
    rcases hs : s with _ | ⟨c, rest⟩
    · rw [hs] at h1
      simp at h1
      rcases h1 with ⟨-, h1, -⟩
      exact absurd h1 h2
    · rw [hs] at h1
      simp only [List.nil_append] at h1
      have hp : pat.isPrefixOf (c :: rest) := by
        rw [List.isPrefixOf_iff_prefix, h1]
        exact ⟨slug ++ post, by simp⟩
      have hdrop : (c :: rest).drop pat.length = slug ++ post := by
        rw [h1, List.append_assoc, List.drop_left]
      have hself : List.takeWhile isSlugChar slug = slug :=
        (List.takeWhile_eq_self_iff).mpr h3
      have htake : ((c :: rest).drop pat.length).takeWhile isSlugChar =
          slug ++ post.takeWhile isSlugChar := by
        rw [hdrop, List.takeWhile_append, if_pos (congrArg List.length hself)]
      have hne : (slug ++ post.takeWhile isSlugChar).isEmpty = false := by
        rcases slug with _ | ⟨a, as⟩
        · exact absurd rfl h2
        · rfl
      refine ⟨slug ++ post.takeWhile isSlugChar, ?_⟩
      rw [reSearch, if_pos hp, htake, if_neg (by simp [hne])]
  | cons p pre2 ih =>
    rcases hs : s with _ | ⟨c, rest⟩
    · rw [hs] at h1
      simp at h1
    · rw [hs] at h1
      have hrest : rest = pre2 ++ pat ++ slug ++ post := by
        simpa using congrArg (List.drop 1) h1
      rw [reSearch]
      by_cases hp : pat.isPrefixOf (c :: rest)
      · rw [if_pos hp]
        by_cases he : (((c :: rest).drop pat.length).takeWhile isSlugChar).isEmpty
        · rw [if_pos he]
          exact ih hrest
        · rw [if_neg he]
          exact ⟨_, rfl⟩
      · rw [if_neg hp]
        exact ih hrest

/-- Search failure: `reSearch` fails exactly on strings containing no pattern match. -/
theorem reSearch_eq_none_iff {pat s : List Char} :
    reSearch pat s = none ↔ ∀ slug, ¬ ListHas pat s slug := by
  constructor
  · intro h slug hhas
    obtain ⟨sl, hsl⟩ := reSearch_isSome hhas
    rw [h] at hsl
    exact Option.noConfusion hsl
  · intro h
    rcases hr : reSearch pat s with _ | sl
    · rfl
    · exact absurd (reSearch_sound hr) (h _)

/-- Value of `extract_slug` when the event pattern matches. -/
theorem extract_slug_event {url : String} {sl : List Char}
    (hev : reSearch "/event/".toList (urlparse_path url).toList = some sl) :
    extract_slug url = some (String.mk sl) := by
  unfold extract_slug
  rw [hev]

/-- Value of `extract_slug` when only the market pattern matches. -/
theorem extract_slug_market {url : String} {sl : List Char}
    (hev : reSearch "/event/".toList (urlparse_path url).toList = none)
    (hmk : reSearch "/market/".toList (urlparse_path url).toList = some sl) :
    extract_slug url = some (String.mk sl) := by
  unfold extract_slug
  rw [hev, hmk]

/-- Value of `extract_slug` when neither pattern matches. -/
theorem extract_slug_nomatch {url : String}
    (hev : reSearch "/event/".toList (urlparse_path url).toList = none)
    (hmk : reSearch "/market/".toList (urlparse_path url).toList = none) :
    extract_slug url = none := by
  unfold extract_slug
  rw [hev, hmk]

/-- C6: `extract_slug` returns `none` exactly when the URL's path contains
neither `/event/<slug>` nor `/market/<slug>`; any slug it returns is one
the path contains; and when the contained slug is unambiguous it returns
exactly that slug. -/
theorem C6_extract_slug_matches_path_patterns (url : String) :
    (extract_slug url = none ↔
      ∀ s, ¬ HasEventSlug (urlparse_path url) s ∧
        ¬ HasMarketSlug (urlparse_path url) s) ∧
    (∀ s, extract_slug url = some s →
      HasEventSlug (urlparse_path url) s ∨ HasMarketSlug (urlparse_path url) s) ∧
    (∀ s₀, (HasEventSlug (urlparse_path url) s₀ ∨ HasMarketSlug (urlparse_path url) s₀) →
      (∀ s, HasEventSlug (urlparse_path url) s ∨ HasMarketSlug (urlparse_path url) s →
        s = s₀) →
      extract_slug url = some s₀) := by
  refine ⟨⟨?_, ?_⟩, ?_, ?_⟩
  · intro h s
    rcases hev : reSearch "/event/".toList (urlparse_path url).toList with _ | sl
    · rcases hmk : reSearch "/market/".toList (urlparse_path url).toList with _ | sl2
      · exact ⟨fun hh => (reSearch_eq_none_iff.mp hev) _ hh,
          fun hh => (reSearch_eq_none_iff.mp hmk) _ hh⟩
      · rw [extract_slug_market hev hmk] at h
        exact Option.noConfusion h
    · rw [extract_slug_event hev] at h
      exact Option.noConfusion h
  · intro h
    have hev : reSearch "/event/".toList (urlparse_path url).toList = none :=
      reSearch_eq_none_iff.mpr fun slug hs => (h (String.mk slug)).1 hs
    have hmk : reSearch "/market/".toList (urlparse_path url).toList = none :=
      reSearch_eq_none_iff.mpr fun slug hs => (h (String.mk slug)).2 hs
    exact extract_slug_nomatch hev hmk
  · intro s hs
    rcases hev : reSearch "/event/".toList (urlparse_path url).toList with _ | sl
    · rcases hmk : reSearch "/market/".toList (urlparse_path url).toList with _ | sl2
      · rw [extract_slug_nomatch hev hmk] at hs
        exact Option.noConfusion hs
      · rw [extract_slug_market hev hmk] at hs
        obtain rfl := Option.some.inj hs
        exact Or.inr (reSearch_sound hmk)
    · rw [extract_slug_event hev] at hs
      obtain rfl := Option.some.inj hs
      exact Or.inl (reSearch_sound hev)
  · intro s₀ h0 huniq
    rcases hev : reSearch "/event/".toList (urlparse_path url).toList with _ | sl
    · rcases h0 with he | hm
      · exact absurd he ((reSearch_eq_none_iff.mp hev) _)
      · obtain ⟨sl2, hmk⟩ := reSearch_isSome hm
        rw [extract_slug_market hev hmk,
          huniq (String.mk sl2) (Or.inr (reSearch_sound hmk))]
    · rw [extract_slug_event hev,
        huniq (String.mk sl) (Or.inl (reSearch_sound hev))]

/-- C6, instantiated: the path `/event/abc` (query cut away) yields the
slug `abc`, which the path indeed contains. -/
theorem C6_extract_slug_matches_path_patterns_witness :
    HasEventSlug (urlparse_path "https://polymarket.com/event/abc?tid=1") "abc" ∨
    HasMarketSlug (urlparse_path "https://polymarket.com/event/abc?tid=1") "abc" :=
  (C6_extract_slug_matches_path_patterns "https://polymarket.com/event/abc?tid=1").2.1
    "abc" (by decide)

/-- C10: when the path contains both an event and a market pattern, in
either order, the extracted slug is an event slug; and when the event
slug is unambiguous, it is exactly the one extracted. -/
theorem C10_event_pattern_wins (url e m : String)
    (he : HasEventSlug (urlparse_path url) e)
    (_hm : HasMarketSlug (urlparse_path url) m) :
    (∃ s, extract_slug url = some s ∧ HasEventSlug (urlparse_path url) s) ∧
    ((∀ s, HasEventSlug (urlparse_path url) s → s = e) →
      extract_slug url = some e) := by
  obtain ⟨sl, hev⟩ := reSearch_isSome he
  refine ⟨⟨String.mk sl, extract_slug_event hev, reSearch_sound hev⟩, ?_⟩
  intro huniq
  rw [extract_slug_event hev, huniq (String.mk sl) (reSearch_sound hev)]

/-- C10, instantiated on `/market/m/event/e`, where the market pattern
comes first: the extracted slug is an event slug. -/
theorem C10_event_pattern_wins_witness :
    ∃ s, extract_slug "/market/m/event/e" = some s ∧
      HasEventSlug (urlparse_path "/market/m/event/e") s :=
  (C10_event_pattern_wins "/market/m/event/e" "e" "m"
    ⟨"/market/m".toList, [], by decide, by decide, by decide, Or.inl rfl⟩
    ⟨[], "/event/e".toList, by decide, by decide, by decide,
      Or.inr ⟨'/', "event/e".toList, by decide, Or.inl rfl⟩⟩).1

/-! ## The fetch control flow -/

/-- Lemma: `first_hit` yields nothing exactly for a non-200 status or an empty
body. -/
theorem first_hit_eq_none {ρ : Type} {r : ApiResponse ρ} :
    first_hit r = none ↔ r.status ≠ 200 ∨ r.body = [] := by
  unfold first_hit
  by_cases h : r.status = 200
  · simp [h, List.head?_eq_none_iff]
  · simp [h]

/-- C7: with a valid slug and both endpoints yielding an empty result set
or a non-success status, `fetch_polymarket_data` returns exactly the
not-found ErrorResult. -/
theorem C7_not_found_error (eventsApi : String → ApiResponse RawEvent)
    (marketsApi : String → ApiResponse RawMarket) (url slug : String)
    (hs : extract_slug url = some slug)
    (he : (eventsApi slug).status ≠ 200 ∨ (eventsApi slug).body = [])
    (hm : (marketsApi slug).status ≠ 200 ∨ (marketsApi slug).body = []) :
    fetch_polymarket_data eventsApi marketsApi url =
      Except.ok (FetchOut.err "No matching event or market found") := by
  unfold fetch_polymarket_data
  rw [hs]
  simp only [first_hit_eq_none.mpr he, first_hit_eq_none.mpr hm]

/-- C7, instantiated: an events endpoint with an empty result set and a
markets endpoint with a non-success status yield the not-found
ErrorResult. -/
theorem C7_not_found_error_witness :
    fetch_polymarket_data emptyEventsApi failMarketsApi
      "https://polymarket.com/event/abc" =
      Except.ok (FetchOut.err "No matching event or market found") :=
  C7_not_found_error emptyEventsApi failMarketsApi
    "https://polymarket.com/event/abc" "abc" (by decide) (Or.inr rfl)
    (Or.inl (by decide))

/-! ## Branch lemmas for `get_answer_options` -/

/-- Branch 1, decodable textual `outcomes`: the decoded value is used. -/
theorem get_answer_options_decoded {m : RawMarket} {s : String} {j : PyVal}
    (ho : m.outcomes = some (.pstr s)) (hj : jloads s = some j) :
    get_answer_options m = .ok j := by
  simp [get_answer_options, ho, hj]

/-- Branch 1, undecodable textual `outcomes`: the raw string is returned
as it stands. -/
theorem get_answer_options_raw {m : RawMarket} {s : String}
    (ho : m.outcomes = some (.pstr s)) (hj : jloads s = none) :
    get_answer_options m = .ok (.pstr s) := by
  simp [get_answer_options, ho, hj]

/-- Branch 1, non-textual `outcomes`: the field is used directly. -/
theorem get_answer_options_direct {m : RawMarket} {v : PyVal}
    (ho : m.outcomes = some v) (hv : ∀ s, v ≠ .pstr s) :
    get_answer_options m = .ok v := by
  unfold get_answer_options
  rw [ho]
  cases v with
  | pstr s => exact absurd rfl (hv s)
  | pnum q => rfl
  | pbool b => rfl
  | pnone => rfl
  | plist l => rfl
  | pdict d => rfl

/-- Branch 2: without an `outcomes` field, a non-empty collection of token
outcomes is returned (sorted, deduplicated). -/
theorem get_answer_options_tokens {m : RawMarket} {a : String} {l : List String}
    (ho : m.outcomes = none)
    (ht : sortedTokenOutcomes (m.tokens.getD []) = a :: l) :
    get_answer_options m = .ok (.plist ((a :: l).map .pstr)) := by
  simp [get_answer_options, ho, ht]

/-- Branch 3: no outcomes, no token labels, exactly two price entries. -/
theorem get_answer_options_yes_no {m : RawMarket}
    (ho : m.outcomes = none) (ht : sortedTokenOutcomes (m.tokens.getD []) = [])
    (hn : pyLen (options_prices m) = .ok 2) :
    get_answer_options m = .ok (.plist [.pstr "Yes", .pstr "No"]) := by
  simp [get_answer_options, ho, ht, hn]

/-- Branch 4: no outcomes, no token labels, a price count other than two:
one synthesized placeholder per price entry. -/
theorem get_answer_options_placeholders {m : RawMarket} {n : Nat}
    (ho : m.outcomes = none) (ht : sortedTokenOutcomes (m.tokens.getD []) = [])
    (hn : pyLen (options_prices m) = .ok n) (h2 : n ≠ 2) :
    get_answer_options m =
      .ok (.plist ((List.range n).map fun i => .pstr ("Option " ++ toString (i + 1)))) := by
  simp [get_answer_options, ho, ht, hn, h2]

/-- The error case: no outcomes, no token labels, and a price value
without a length. -/
theorem get_answer_options_error {m : RawMarket} {e : PyErr}
    (ho : m.outcomes = none) (ht : sortedTokenOutcomes (m.tokens.getD []) = [])
    (hn : pyLen (options_prices m) = .error e) :
    get_answer_options m = .error e := by
  simp [get_answer_options, ho, ht, hn]

/-- The token-outcome fallback list is sorted. -/
theorem sortedTokenOutcomes_sorted (tokens : List Token) :
    List.Sorted (· ≤ ·) (sortedTokenOutcomes tokens) :=
  List.sorted_insertionSort _ _

/-- The token-outcome fallback list has no duplicates. -/
theorem sortedTokenOutcomes_nodup (tokens : List Token) :
    (sortedTokenOutcomes tokens).Nodup :=
  ((List.perm_insertionSort _ _).nodup_iff).mpr (List.nodup_dedup _)

/-- The token-outcome fallback list collects exactly the non-empty
stripped token outcomes. -/
theorem mem_sortedTokenOutcomes {tokens : List Token} {x : String} :
    x ∈ sortedTokenOutcomes tokens ↔
      x ≠ "" ∧ ∃ t ∈ tokens, pyStrip (t.outcome.getD "") = x := by
  unfold sortedTokenOutcomes
  rw [List.mem_insertionSort, List.mem_dedup, List.mem_filter]
  constructor
  · rintro ⟨hx, hne⟩
    obtain ⟨t, ht, rfl⟩ := List.mem_map.mp hx
    exact ⟨by simpa using hne, t, ht, rfl⟩
  · rintro ⟨hne, t, ht, rfl⟩
    exact ⟨List.mem_map.mpr ⟨t, ht, rfl⟩, by simpa using hne⟩

/-- C3: the fallback chain of `get_answer_options`, top to bottom.  A
present `outcomes` field short-circuits (decoded when textual and
decodable, direct otherwise) regardless of tokens and prices; else a
non-empty token collection is returned sorted, deduplicated, and
containing exactly the non-empty token labels; else two price entries
yield `["Yes", "No"]`; else one placeholder per price entry. -/
theorem C3_fallback_chain (m : RawMarket) :
    (∀ s j, m.outcomes = some (.pstr s) → jloads s = some j →
      get_answer_options m = .ok j) ∧
    (∀ v, m.outcomes = some v → (∀ s, v ≠ .pstr s) →
      get_answer_options m = .ok v) ∧
    (∀ a l, m.outcomes = none →
      sortedTokenOutcomes (m.tokens.getD []) = a :: l →
      get_answer_options m = .ok (.plist ((a :: l).map .pstr)) ∧
      List.Sorted (· ≤ ·) (a :: l) ∧ (a :: l).Nodup ∧
      (∀ x, x ∈ a :: l ↔
        x ≠ "" ∧ ∃ t ∈ m.tokens.getD [], pyStrip (t.outcome.getD "") = x)) ∧
    (m.outcomes = none → sortedTokenOutcomes (m.tokens.getD []) = [] →
      pyLen (options_prices m) = .ok 2 →
      get_answer_options m = .ok (.plist [.pstr "Yes", .pstr "No"])) ∧
    (∀ n, m.outcomes = none → sortedTokenOutcomes (m.tokens.getD []) = [] →
      pyLen (options_prices m) = .ok n → n ≠ 2 →
      get_answer_options m =
        .ok (.plist ((List.range n).map fun i =>
          .pstr ("Option " ++ toString (i + 1))))) := by
  refine ⟨fun s j ho hj => get_answer_options_decoded ho hj,
    fun v ho hv => get_answer_options_direct ho hv,
    fun a l ho ht => ⟨get_answer_options_tokens ho ht, ?_, ?_, ?_⟩,
    fun ho ht hn => get_answer_options_yes_no ho ht hn,
    fun n ho ht hn h2 => get_answer_options_placeholders ho ht hn h2⟩
  · rw [← ht]
    exact sortedTokenOutcomes_sorted _
  · rw [← ht]
    exact sortedTokenOutcomes_nodup _
  · intro x
    rw [← ht]
    exact mem_sortedTokenOutcomes

/-- C3, instantiated on the spec's example: three prices and no outcome
information at all synthesize three placeholders. -/
theorem C3_fallback_chain_witness :
    get_answer_options marketThreePrices =
      .ok (.plist [.pstr "Option 1", .pstr "Option 2", .pstr "Option 3"]) := by
  rw [(C3_fallback_chain marketThreePrices).2.2.2.2 3 rfl (by decide) (by decide)
    (by decide)]
  decide

/-! ## `parse_outcome_prices` -/

/-- When `outcomePrices` is a mapping, `get_answer_options` cannot raise:
every branch of the chain produces a value (the final `len()` is applied
to the mapping, which has a length). -/
theorem get_answer_options_isOk_of_mapping {m : RawMarket}
    {d : List (PyVal × PyVal)} (h : m.outcomePrices = some (.pdict d)) :
    ∃ v, get_answer_options m = .ok v := by
  rcases ho : m.outcomes with _ | v
  · rcases ht : sortedTokenOutcomes (m.tokens.getD []) with _ | ⟨a, l⟩
    · have hop : options_prices m = .pdict d := by
        unfold options_prices
        rw [h]
        rfl
      by_cases h2 : d.length = 2
      · refine ⟨_, get_answer_options_yes_no ho ht ?_⟩
        rw [hop]
        exact congrArg Except.ok h2
      · exact ⟨_, get_answer_options_placeholders ho ht (by rw [hop]; rfl) h2⟩
    · exact ⟨_, get_answer_options_tokens ho ht⟩
  · cases v with
    | pstr s =>
      rcases hj : jloads s with _ | j
      · exact ⟨_, get_answer_options_raw ho hj⟩
      · exact ⟨_, get_answer_options_decoded ho hj⟩
    | pnum q => exact ⟨_, get_answer_options_direct ho fun s hh => PyVal.noConfusion hh⟩
    | pbool b => exact ⟨_, get_answer_options_direct ho fun s hh => PyVal.noConfusion hh⟩
    | pnone => exact ⟨_, get_answer_options_direct ho fun s hh => PyVal.noConfusion hh⟩
    | plist l => exact ⟨_, get_answer_options_direct ho fun s hh => PyVal.noConfusion hh⟩
    | pdict dd => exact ⟨_, get_answer_options_direct ho fun s hh => PyVal.noConfusion hh⟩

/-- C5: mapping-shaped `outcomePrices` pass through `parse_outcome_prices`
unchanged — the identity, with no float coercion of the values. -/
theorem C5_mapping_passthrough (m : RawMarket) (d : List (PyVal × PyVal))
    (h : m.outcomePrices = some (.pdict d)) :
    parse_outcome_prices m = .ok (.pdict d) := by
  obtain ⟨v, hv⟩ := get_answer_options_isOk_of_mapping h
  have hnp : normalized_prices m = .pdict d := by
    unfold normalized_prices
    rw [h]
    rfl
  simp only [parse_outcome_prices, hnp, hv]
  rfl

/-- C5, instantiated: a mapping with the string-valued orphan key `"Foo"`
comes back exactly as it went in. -/
theorem C5_mapping_passthrough_witness :
    parse_outcome_prices marketOrphan = .ok (.pdict [(.pstr "Foo", .pnum (1 / 2))]) :=
  C5_mapping_passthrough marketOrphan [(.pstr "Foo", .pnum (1 / 2))] rfl

/-- Reduction of `pure` in the `Except` monad. -/
theorem except_pure_eq {ε α : Type} (a : α) : (pure a : Except ε α) = Except.ok a := rfl

/-- Bind on a success. -/
theorem except_bind_ok {ε α β : Type} (a : α) (f : α → Except ε β) :
    (Except.ok a >>= f : Except ε β) = f a := rfl

/-- Bind on an error. -/
theorem except_bind_error {ε α β : Type} (e : ε) (f : α → Except ε β) :
    (Except.error e >>= f : Except ε β) = Except.error e := rfl

/-- Map on a success. -/
theorem except_map_ok {ε α β : Type} (f : α → β) (a : α) :
    Except.map f (Except.ok a : Except ε α) = Except.ok (f a) := rfl

/-- Map on an error. -/
theorem except_map_error {ε α β : Type} (f : α → β) (e : ε) :
    Except.map f (Except.error e : Except ε α) = Except.error e := rfl

/-- Insertion `dictInsert` is plain append when the key is fresh. -/
theorem dictInsert_of_fresh {d : List (PyVal × PyVal)} {k v : PyVal}
    (h : ∀ kv ∈ d, kv.1 ≠ k) : dictInsert d k v = d ++ [(k, v)] := by
  have hc : ¬(d.any fun kv => kv.1 == k) = true := by
    simp only [List.any_eq_true, beq_iff_eq, not_exists, not_and]
    exact h
  unfold dictInsert
  rw [if_neg hc]

/-- The dict-building fold of `parse_outcome_prices` computes exactly the
spec's positional zip — pair positionally, skip falsy labels, coerce each
price — provided the truthy labels are distinct. -/
theorem fold_prices_eq_spec (os : List PyVal) :
    ∀ (ps : List PyVal) (acc : List (PyVal × PyVal)),
    (os.filter truthy).Nodup →
    (∀ kv ∈ acc, ∀ o ∈ os, truthy o = true → kv.1 ≠ o) →
    (os.zip ps).foldlM
      (fun d op =>
        if truthy op.1 then do
          let q ← pyFloat op.2
          pure (dictInsert d op.1 (.pnum q))
        else pure d) acc =
      (spec_zip_prices os ps).map fun l => acc ++ l := by
  induction os with
  | nil =>
    intro ps acc _ _
    simp [spec_zip_prices, except_pure_eq, except_map_ok]
  | cons o os ih =>
    intro ps acc hnd hacc
    cases ps with
    | nil => simp [spec_zip_prices, except_pure_eq, except_map_ok]
    | cons p ps =>
      simp only [List.zip_cons_cons, List.foldlM_cons]
      by_cases ht : truthy o = true
      · simp only [ht, if_true]
        cases hq : pyFloat p with
        | error e =>
          simp [spec_zip_prices, ht, hq, except_bind_error, except_map_error]
        | ok q =>
          have hfresh : ∀ kv ∈ acc, kv.1 ≠ o :=
            fun kv hkv => hacc kv hkv o (List.mem_cons_self o os) ht
          have hins : dictInsert acc o (.pnum q) = acc ++ [(o, .pnum q)] :=
            dictInsert_of_fresh hfresh
          have hfil : (o :: os).filter truthy = o :: os.filter truthy := by
            simp [List.filter_cons, ht]
          rw [hfil] at hnd
          have hno : o ∉ os.filter truthy := (List.nodup_cons.mp hnd).1
          have hnd2 : (os.filter truthy).Nodup := (List.nodup_cons.mp hnd).2
          have hacc2 : ∀ kv ∈ acc ++ [(o, PyVal.pnum q)], ∀ o2 ∈ os,
              truthy o2 = true → kv.1 ≠ o2 := by
            intro kv hkv o2 ho2 hto2
            rcases List.mem_append.mp hkv with hkv | hkv
            · exact hacc kv hkv o2 (List.mem_cons_of_mem _ ho2) hto2
            · rw [List.mem_singleton] at hkv
              subst hkv
              intro hoe
              have hoe2 : o = o2 := hoe
              refine hno ?_
              rw [hoe2]
              exact List.mem_filter.mpr ⟨ho2, hto2⟩
          have hrec := ih ps (acc ++ [(o, .pnum q)]) hnd2 hacc2
          simp only [except_pure_eq] at hrec
          simp only [hq, hins, except_bind_ok, except_pure_eq]
          rw [hrec]
          simp only [spec_zip_prices, ht, if_true, hq, except_bind_ok]
          cases spec_zip_prices os ps <;>
            simp [except_bind_ok, except_bind_error, except_map_ok,
              except_map_error, except_pure_eq, List.append_assoc]
      · have htf : truthy o = false := by
          cases hh : truthy o
          · rfl
          · exact absurd hh ht
        have hfil : (o :: os).filter truthy = os.filter truthy := by
          simp [List.filter_cons, htf]
        rw [hfil] at hnd
        have hacc2 : ∀ kv ∈ acc, ∀ o2 ∈ os, truthy o2 = true → kv.1 ≠ o2 :=
          fun kv hkv o2 ho2 => hacc kv hkv o2 (List.mem_cons_of_mem _ ho2)
        have hrec := ih ps acc hnd hacc2
        simp only [except_pure_eq] at hrec
        simp only [htf, Bool.false_eq_true, if_false, except_pure_eq,
          except_bind_ok]
        rw [hrec]
        simp [spec_zip_prices, htf]

/-- C4: with list-shaped (decoded) prices and a list of answer options
whose truthy labels are distinct, `parse_outcome_prices` computes exactly
the spec's positional zip — pair positionally against the options
resolved from the same record, skip falsy labels, coerce each price to a
float. -/
theorem C4_list_prices_zip (m : RawMarket) (ps opts : List PyVal)
    (hps : normalized_prices m = .plist ps)
    (hopts : get_answer_options m = .ok (.plist opts))
    (hnd : (opts.filter truthy).Nodup) :
    parse_outcome_prices m = (spec_zip_prices opts ps).map PyVal.pdict := by
  have h := fold_prices_eq_spec opts ps [] hnd (by simp)
  simp only [except_pure_eq] at h
  simp only [parse_outcome_prices, hps, hopts, except_bind_ok, iterElems,
    except_pure_eq]
  rw [h]
  cases spec_zip_prices opts ps <;>
    simp [except_map_ok, except_map_error, except_bind_ok, except_bind_error,
      except_pure_eq]

/-- C4, instantiated on the spec's §8.2 example: prices `["0.7", "0.3"]`
with no outcomes field and no tokens resolve to options `["Yes", "No"]`
and the price mapping `{Yes ↦ 0.7, No ↦ 0.3}`. -/
theorem C4_list_prices_zip_witness :
    get_answer_options marketTwoPrices = .ok (.plist [.pstr "Yes", .pstr "No"]) ∧
    parse_outcome_prices marketTwoPrices =
      .ok (.pdict [(.pstr "Yes", .pnum (7 / 10)), (.pstr "No", .pnum (3 / 10))]) := by
  refine ⟨by decide, ?_⟩
  rw [C4_list_prices_zip marketTwoPrices [.pstr "0.7", .pstr "0.3"]
    [.pstr "Yes", .pstr "No"] (by decide) (by decide) (by decide)]
  decide

/-- C9: `parse_outcome_prices` is not total on list-shaped price data — a
non-numeric string price paired with the non-empty resolved label `"Yes"`
makes the unguarded float coercion raise `ValueError`, which the
decode-failure guard does not catch. -/
theorem C9_float_coercion_not_total :
    ∃ (m : RawMarket) (ps : List PyVal),
      m.outcomePrices = some (.plist ps) ∧
      (∃ s, ps.head? = some (.pstr s) ∧ parseFloat s = none) ∧
      get_answer_options m = .ok (.plist [.pstr "Yes", .pstr "No"]) ∧
      parse_outcome_prices m = .error .valueError :=
  ⟨marketBadFloat, [.pstr "abc", .pstr "0.5"], rfl, ⟨"abc", rfl, by decide⟩,
    by decide, by decide⟩

/-- C1 counterexample: a mapping-shaped `outcomePrices` whose key `"Foo"`
is no answer option flows through `format_market_data` unchanged, so the
produced MarketRecord violates the no-orphan-keys invariant. -/
theorem C1_counterexample_orphan_key :
    format_market_data marketOrphan = .ok orphanRecord ∧
    no_orphan_keys orphanRecord = false := by
  constructor <;> decide

/-- A key present after a `dictInsert` was present before, or is the
inserted key. -/
theorem keys_dictInsert_subset {d : List (PyVal × PyVal)} {k v x : PyVal}
    (h : x ∈ (dictInsert d k v).map Prod.fst) :
    x ∈ d.map Prod.fst ∨ x = k := by
  unfold dictInsert at h
  by_cases hc : (d.any fun kv => kv.1 == k) = true
  · rw [if_pos hc, List.map_map] at h
    obtain ⟨kv, hkv, hx⟩ := List.mem_map.mp h
    simp only [Function.comp] at hx
    by_cases hk : (kv.1 == k) = true
    · right
      rw [if_pos hk] at hx
      exact hx.symm
    · left
      rw [if_neg hk] at hx
      exact List.mem_map.mpr ⟨kv, hkv, hx⟩
  · rw [if_neg hc, List.map_append] at h
    rcases List.mem_append.mp h with h | h
    · exact Or.inl h
    · right
      simpa using h

/-- Every key the dict-building fold produces comes from the accumulator
or from the zipped pairs. -/
theorem fold_prices_keys (pairs : List (PyVal × PyVal)) :
    ∀ (acc d : List (PyVal × PyVal)),
    pairs.foldlM
      (fun d op =>
        if truthy op.1 then do
          let q ← pyFloat op.2
          pure (dictInsert d op.1 (.pnum q))
        else pure d) acc = .ok d →
    ∀ kv ∈ d, kv.1 ∈ acc.map Prod.fst ∨ kv.1 ∈ pairs.map Prod.fst := by
  induction pairs with
  | nil =>
    intro acc d h kv hkv
    left
    have had : acc = d := by
      simpa [except_pure_eq] using h
    exact List.mem_map.mpr ⟨kv, had ▸ hkv, rfl⟩
  | cons op pairs ih =>
    intro acc d h kv hkv
    rw [List.foldlM_cons] at h
    by_cases ht : truthy op.1 = true
    · simp only [ht, if_true] at h
      cases hq : pyFloat op.2 with
      | error e =>
        rw [hq] at h
        simp [except_bind_error] at h
      | ok q =>
        rw [hq] at h
        simp only [except_bind_ok, except_pure_eq] at h
        rcases ih (dictInsert acc op.1 (.pnum q)) d h kv hkv with hkey | hkey
        · rcases keys_dictInsert_subset hkey with h2 | h2
          · exact Or.inl h2
          · refine Or.inr ?_
            rw [List.map_cons, h2]
            exact List.mem_cons_self _ _
        · refine Or.inr ?_
          rw [List.map_cons]
          exact List.mem_cons_of_mem _ hkey
    · simp only [if_neg ht, except_pure_eq, except_bind_ok] at h
      rcases ih acc d h kv hkv with hkey | hkey
      · exact Or.inl hkey
      · refine Or.inr ?_
        rw [List.map_cons]
        exact List.mem_cons_of_mem _ hkey

/-- C1 amended: in the list-shaped branch of `parse_outcome_prices` every
key of the produced price mapping appears among the answer options, so
the resulting MarketRecord satisfies the no-orphan-keys invariant (the
mapping-shaped branch passes keys through unvalidated; see the
counterexample). -/
theorem C1_no_orphans_in_list_branch (m : RawMarket) (ps : List PyVal)
    (r : MarketRecord) (hps : normalized_prices m = .plist ps)
    (hr : format_market_data m = .ok r) :
    no_orphan_keys r = true := by
  cases hg : get_answer_options m with
  | error e =>
    rw [format_market_data] at hr
    rw [hg] at hr
    simp [except_bind_error] at hr
  | ok opts =>
    cases hp : parse_outcome_prices m with
    | error e =>
      rw [format_market_data] at hr
      rw [hg, hp] at hr
      simp [except_bind_ok, except_bind_error] at hr
    | ok prices =>
      rw [format_market_data] at hr
      rw [hg, hp] at hr
      simp only [except_bind_ok, except_pure_eq] at hr
      injection hr with hr
      subst hr
      simp only [parse_outcome_prices, hps, hg, except_bind_ok] at hp
      cases hi : iterElems opts with
      | none =>
        rw [hi] at hp
        simp at hp
      | some l =>
        rw [hi] at hp
        simp only [except_pure_eq] at hp
        cases hf : (l.zip ps).foldlM
            (fun d op =>
              if truthy op.1 then do
                let q ← pyFloat op.2
                Except.ok (dictInsert d op.1 (.pnum q))
              else Except.ok d) [] with
        | error e =>
          rw [hf] at hp
          simp [except_bind_error] at hp
        | ok d =>
          rw [hf] at hp
          simp only [except_bind_ok, except_pure_eq] at hp
          injection hp with hp
          subst hp
          simp only [no_orphan_keys, List.all_eq_true]
          intro kv hkv
          rcases fold_prices_keys (l.zip ps) [] d (by simpa [except_pure_eq] using hf)
              kv hkv with hkey | hkey
          · simp at hkey
          · obtain ⟨pr, hpr, heq⟩ := List.mem_map.mp hkey
            obtain ⟨a, b⟩ := pr
            have hal : a ∈ l := (List.of_mem_zip hpr).1
            simp only [appears_in, hi]
            rw [← heq]
            exact List.elem_eq_true_of_mem hal

/-- C1 amended, instantiated on the §8.2 market: the produced record has
no orphan price keys. -/
theorem C1_no_orphans_in_list_branch_witness :
    no_orphan_keys twoPriceRecord = true :=
  C1_no_orphans_in_list_branch marketTwoPrices [.pstr "0.7", .pstr "0.3"]
    twoPriceRecord (by decide) (by decide)

/-- C2 counterexample: an undecodable textual `outcomes` value is NOT
treated as absent — `get_answer_options` returns the raw string itself,
not an empty or fallback label list. -/
theorem C2_counterexample_raw_string :
    jloads "nope" = none ∧
    get_answer_options marketBadOutcomes = .ok (.pstr "nope") ∧
    (∀ l, PyVal.pstr "nope" ≠ .plist l) :=
  ⟨by decide, by decide, fun l h => PyVal.noConfusion h⟩

/-- C2 amended: an undecodable textual `outcomePrices` makes
`parse_outcome_prices` yield the empty price mapping without raising
(whenever the resolved answer options are iterable at all), while an
undecodable textual `outcomes` makes `get_answer_options` return the raw
string unchanged — it neither raises nor treats the field as absent. -/
theorem C2_undecodable_soft_fail :
    (∀ m s, m.outcomes = some (.pstr s) → jloads s = none →
      get_answer_options m = .ok (.pstr s)) ∧
    (∀ m s opts l, m.outcomePrices = some (.pstr s) → jloads s = none →
      get_answer_options m = .ok opts → iterElems opts = some l →
      parse_outcome_prices m = .ok (.pdict [])) := by
  constructor
  · exact fun m s ho hj => get_answer_options_raw ho hj
  · intro m s opts l hp hj hopts hiter
    have hnp : normalized_prices m = .plist [] := by
      unfold normalized_prices
      rw [hp]
      simp [hj]
    simp only [parse_outcome_prices, hnp, hopts, except_bind_ok, hiter,
      List.zip_nil_right, List.foldlM_nil, except_pure_eq, except_bind_ok]

/-- C2 amended, instantiated: the undecodable `outcomes` text `"nope"`
comes back raw, and the undecodable `outcomePrices` text `"not json"`
yields the empty price mapping. -/
theorem C2_undecodable_soft_fail_witness :
    get_answer_options marketBadOutcomes = .ok (.pstr "nope") ∧
    parse_outcome_prices marketBadPrices = .ok (.pdict []) :=
  ⟨C2_undecodable_soft_fail.1 marketBadOutcomes "nope" rfl (by decide),
    C2_undecodable_soft_fail.2 marketBadPrices "not json" (.plist []) [] rfl
      (by decide) (by decide) rfl⟩

/-! ## The renderer -/

/-- The renderer's option loop: with a numeric price mapping, each label
line shows the label and its price — defaulted to `0` when the label has
no entry — times 100, in one-decimal fixed formatting. -/
theorem render_fold (d : List (PyVal × PyVal))
    (hnum : ∀ kv ∈ d, ∃ q : ℚ, kv.2 = .pnum q) :
    ∀ (labels : List String) (acc : List String),
    (labels.map PyVal.pstr).foldlM
      (fun acc op => do
        let price ← dictGetD (.pdict d) op (.pnum 0)
        let pct ← mulFormat price
        pure (acc ++ ["> " ++ pyStr op ++ " (" ++ pct ++ "%)"])) acc =
      .ok (acc ++ labels.map fun lb =>
        "> " ++ lb ++ " (" ++ fmtFixed1 (priceOf d lb * 100) ++ "%)") := by
  intro labels
  induction labels with
  | nil =>
    intro acc
    simp [except_pure_eq]
  | cons lb rest ih =>
    intro acc
    simp only [List.map_cons, List.foldlM_cons]
    have hval : dictGetD (.pdict d) (.pstr lb) (.pnum 0) =
        .ok (.pnum (priceOf d lb)) := by
      unfold dictGetD priceOf
      rcases hf : d.find? (fun kv => kv.1 == .pstr lb) with _ | kv
      · simp [hf]
      · obtain ⟨q, hq⟩ := hnum kv (List.mem_of_find?_eq_some hf)
        simp [hf, hq]
    rw [hval]
    simp only [except_bind_ok]
    rw [show mulFormat (.pnum (priceOf d lb)) =
      .ok (fmtFixed1 (priceOf d lb * 100)) from rfl]
    simp only [except_bind_ok, except_pure_eq] at ih ⊢
    rw [ih]
    simp [pyStr, List.append_assoc]

/-- C8: rendering a record whose answer options are a list of labels and
whose prices form a numeric mapping emits the question line, the end-date
line, `"Options:"`, and one line per option, each showing the label and
its price — options absent from `current_prices` priced at `0` — times
100 with one-decimal fixed formatting. -/
theorem C8_renderer_prices_percent (r : MarketRecord) (labels : List String)
    (d : List (PyVal × PyVal))
    (hopts : r.answer_options = .plist (labels.map .pstr))
    (hpr : r.current_prices = .pdict d)
    (hnum : ∀ kv ∈ d, ∃ q : ℚ, kv.2 = .pnum q) :
    format_market_text r = .ok (String.intercalate "\n"
      (["Market: " ++ r.question, "Ends: " ++ optStr r.end_date, "Options:"] ++
        labels.map fun lb =>
          "> " ++ lb ++ " (" ++ fmtFixed1 (priceOf d lb * 100) ++ "%)")) := by
  simp only [format_market_text, hopts, hpr, iterElems]
  rw [render_fold d hnum labels]
  simp [except_bind_ok, except_pure_eq]

/-- C8, instantiated on the spec's §8.6 example: `"No"`, absent from the
price mapping, renders at `0.0%`. -/
theorem C8_renderer_prices_percent_witness :
    format_market_text recordMissingNo =
      .ok "Market: Will it rain?\nEnds: 2030-01-01\nOptions:\n> Yes (70.0%)\n> No (0.0%)" := by
  rw [C8_renderer_prices_percent recordMissingNo ["Yes", "No"]
    [(.pstr "Yes", .pnum (7 / 10))] rfl rfl ?_]
  · decide
  · intro kv hkv
    rw [List.mem_singleton] at hkv
    exact ⟨7 / 10, by rw [hkv]⟩

end Polymarket
